import Mathlib

/-!
Shallow embedding of `levex/rust-x86-mp` (`src/lib.rs`), a decoder for the
Intel MultiProcessor Specification tables, together with theorems settling
the specification claims.

Modelling conventions:
* Machine integers (`u8`, `u16`, `u32`, `usize`) are embedded as `Nat`.
  Overflow never occurs in the source (sums of at most 16 bytes in `usize`),
  so no explicit `% 2^w` is needed except where `LittleEndian::write_u32`
  decomposes a `u32` into bytes, which is modelled by `leBytes4`.
* Fixed-size byte arrays (`[u8; n]`) are embedded as `List Nat`.
* A panic (the `Unknown` arm of `MPEntryCode::length`) is modelled as `none`
  of an `Option`; the iterator propagates it as `Except.error ()`.
* The raw-pointer memory read in `EntryIterator::next` is modelled by an
  explicit byte memory `Mem : Nat → Nat` (byte value at a physical address).
* The untagged `union MPPossibleEntries` is modelled by its backing byte
  storage; reading a union field is decoding the struct from those bytes,
  which is exactly what the reinterpretation of `#[repr(C, packed)]` storage
  does on a little-endian machine.
-/

/-- Byte memory: the byte stored at each physical address. -/
def Mem : Type := Nat → Nat

/-- `LittleEndian::write_u32`: the four little-endian bytes of a 32-bit value. -/
def leBytes4 (n : Nat) : List Nat :=
  [n % 256, n / 256 % 256, n / 65536 % 256, n / 16777216 % 256]

/-- The MP Floating Pointer Structure ([MPSpec] Section 4.1), `lib.rs` lines 8-15. -/
structure MPFloatingPointer where
  signature : Nat
  physical_address_pointer : Nat
  length : Nat
  spec_rev : Nat
  checksum : Nat
  mp_feature_info_bytes : List Nat
deriving DecidableEq

/-- ASCII of `"_MP_"`, `lib.rs` line 19. -/
def MPFLOATINGPOINTER_SIGNATURE : List Nat := [95, 77, 80, 95]

/-- ASCII of `"PCMP"`, `lib.rs` line 23. -/
def MPCONFIGURATIONTABLEHEADER_SIGNATURE : List Nat := [80, 67, 77, 80]

/-- `MPFloatingPointer::verify_checksum`, `lib.rs` lines 26-45: fill a 16-byte
buffer with the little-endian bytes of the two `u32` fields, sum it, add the
remaining byte fields and test the low nibble of the total. -/
def MPFloatingPointer.verify_checksum (fp : MPFloatingPointer) : Bool :=
  let buf := leBytes4 fp.signature ++ leBytes4 fp.physical_address_pointer
      ++ List.replicate 8 0
  let checksum := buf.sum + fp.length + fp.spec_rev + fp.checksum
      + fp.mp_feature_info_bytes.sum
  (checksum &&& 0x0f) == 0

/-- `MPFloatingPointer::verify_signature`, `lib.rs` lines 47-51. -/
def MPFloatingPointer.verify_signature (fp : MPFloatingPointer) : Bool :=
  leBytes4 fp.signature == MPFLOATINGPOINTER_SIGNATURE

/-- `MPFloatingPointer::is_valid`, `lib.rs` lines 53-55. -/
def MPFloatingPointer.is_valid (fp : MPFloatingPointer) : Bool :=
  fp.verify_checksum && fp.verify_signature

/-- Specification-side quantity: the sum, as unsigned bytes, of the 16 bytes of
the floating pointer structure (4 signature bytes, 4 table-pointer bytes,
length, spec revision, the checksum byte itself, 5 feature bytes). -/
def MPFloatingPointer.byteSum (fp : MPFloatingPointer) : Nat :=
  (leBytes4 fp.signature).sum + (leBytes4 fp.physical_address_pointer).sum
    + fp.length + fp.spec_rev + fp.checksum + fp.mp_feature_info_bytes.sum

/-- The MP Configuration Table Header, `lib.rs` lines 60-73. -/
structure MPConfigurationTableHeader where
  signature : Nat
  base_table_length : Nat
  spec_rev : Nat
  checksum : Nat
  oem_id : List Nat
  product_id : List Nat
  oem_table_pointer : Nat
  oem_table_size : Nat
  entry_count : Nat
  local_apic_addr : Nat
  extended_table_length : Nat
  extended_table_checksum : Nat
deriving DecidableEq

/-- `MPConfigurationTableHeader::verify_checksum`, `lib.rs` lines 77-80:
the body is a `FIXME` stub that returns `true` unconditionally. -/
def MPConfigurationTableHeader.verify_checksum
    (_h : MPConfigurationTableHeader) : Bool :=
  true

/-- `MPConfigurationTableHeader::verify_signature`, `lib.rs` lines 82-86. -/
def MPConfigurationTableHeader.verify_signature
    (h : MPConfigurationTableHeader) : Bool :=
  leBytes4 h.signature == MPCONFIGURATIONTABLEHEADER_SIGNATURE

/-- `MPConfigurationTableHeader::is_valid`, `lib.rs` lines 88-90. -/
def MPConfigurationTableHeader.is_valid (h : MPConfigurationTableHeader) : Bool :=
  h.verify_checksum && h.verify_signature

/-- `MPEntryCode`, `lib.rs` lines 102-110. -/
inductive MPEntryCode where
  | Processor
  | Bus
  | IOAPIC
  | IOInterruptAssignment
  | LocalInterruptAssignment
  | Unknown
deriving DecidableEq

/-- The discriminant values of `MPEntryCode` (`Processor = 0`, …, `Unknown = 5`). -/
def MPEntryCode.codeByte : MPEntryCode → Nat
  | .Processor => 0
  | .Bus => 1
  | .IOAPIC => 2
  | .IOInterruptAssignment => 3
  | .LocalInterruptAssignment => 4
  | .Unknown => 5

/-- `MPEntryCode::length`, `lib.rs` lines 113-124. The `Unknown` arm panics in
the source; the panic is modelled as `none`. -/
def MPEntryCode.length : MPEntryCode → Option Nat
  | .Processor => some 20
  | .Bus => some 8
  | .IOAPIC => some 8
  | .IOInterruptAssignment => some 8
  | .LocalInterruptAssignment => some 8
  | .Unknown => none

/-- `MPEntryCode::from_u8`, `lib.rs` lines 126-135. -/
def MPEntryCode.from_u8 (num : Nat) : MPEntryCode :=
  match num with
  | 0 => .Processor
  | 1 => .Bus
  | 2 => .IOAPIC
  | 3 => .IOInterruptAssignment
  | 4 => .LocalInterruptAssignment
  | _ => .Unknown

/-- The defined length of a known entry code (`0` only for `Unknown`, which is
never used on known codes). -/
def MPEntryCode.lengthD (c : MPEntryCode) : Nat :=
  c.length.getD 0

/-- Total byte length of a run of entry classifications. -/
def sumLen (cs : List MPEntryCode) : Nat :=
  (cs.map MPEntryCode.lengthD).sum

/-- `EntryIterator`, `lib.rs` lines 139-144. -/
structure EntryIterator where
  table_location : Nat
  entries_sofar : Nat
  total_entries : Nat
  current_offset : Nat
deriving DecidableEq

/-- `MPConfigurationTableHeader::iter`, `lib.rs` lines 92-99: position the
iterator 44 bytes (the header size) past the table location. -/
def MPConfigurationTableHeader.iter (h : MPConfigurationTableHeader)
    (table_location : Nat) : EntryIterator :=
  { table_location := table_location + 44
    total_entries := h.entry_count
    entries_sofar := 0
    current_offset := 0 }

/-- `<EntryIterator as Iterator>::next`, `lib.rs` lines 149-160: when exhausted
return `none`; otherwise read the byte at `table_location + current_offset`
from memory, classify it, advance by the classification's length (a panic —
modelled `Except.error ()` — when the length is undefined) and yield it. -/
def EntryIterator.next (mem : Mem) (it : EntryIterator) :
    Except Unit (Option MPEntryCode × EntryIterator) :=
  if it.entries_sofar ≥ it.total_entries then
    .ok (none, it)
  else
    let current_code := MPEntryCode.from_u8 (mem (it.table_location + it.current_offset))
    match current_code.length with
    | none => .error ()
    | some l =>
        .ok (some current_code,
          { it with
              entries_sofar := it.entries_sofar + 1
              current_offset := it.current_offset + l })

/-- Drive the iterator for at most `k` calls to `next`, collecting the yielded
classifications; stop early on exhaustion, propagate the fatal error. -/
def runIter (mem : Mem) : Nat → EntryIterator →
    Except Unit (List MPEntryCode × EntryIterator)
  | 0, it => .ok ([], it)
  | k + 1, it =>
    match EntryIterator.next mem it with
    | .error e => .error e
    | .ok (none, it2) => .ok ([], it2)
    | .ok (some c, it2) =>
      match runIter mem k it2 with
      | .error e => .error e
      | .ok (cs, it3) => .ok (c :: cs, it3)

/-- `ProcessorEntry`, `lib.rs` lines 220-228 (`#[repr(C, packed)]`). -/
structure ProcessorEntry where
  entry_type : Nat
  lapic_id : Nat
  lapic_version : Nat
  cpu_flags : Nat
  cpu_signature : List Nat
  unused : List Nat
  feature_flags : Nat
deriving DecidableEq

/-- `BusEntry`, `lib.rs` lines 232-236. -/
structure BusEntry where
  entry_type : Nat
  bus_id : Nat
  bus_type_string : List Nat
deriving DecidableEq

/-- `IOAPICEntry`, `lib.rs` lines 240-246. -/
structure IOAPICEntry where
  entry_type : Nat
  ioapic_id : Nat
  ioapic_version : Nat
  ioapic_flags : Nat
  ioapic_address : Nat
deriving DecidableEq

/-- `IOInterruptAssignmentEntry`, `lib.rs` lines 250-259. -/
structure IOInterruptAssignmentEntry where
  entry_type : Nat
  interrupt_type : Nat
  interrupt_mode : Nat
  unused : Nat
  source_bus_id : Nat
  source_bus_irq : Nat
  dest_ioapic_id : Nat
  dest_ioapic_int : Nat
deriving DecidableEq

/-- `LocalInterruptAssignmentEntry`, `lib.rs` lines 263-272. -/
structure LocalInterruptAssignmentEntry where
  entry_type : Nat
  interrupt_type : Nat
  interrupt_mode : Nat
  unused : Nat
  source_bus_id : Nat
  source_bus_irq : Nat
  dest_ioapic_id : Nat
  dest_ioapic_int : Nat
deriving DecidableEq

/-- Little-endian recomposition of four bytes into a 32-bit value. -/
def leRead4 (b0 b1 b2 b3 : Nat) : Nat :=
  b0 + 256 * b1 + 65536 * b2 + 16777216 * b3

/-- Reinterpret the packed bytes of a record as `ProcessorEntry`
(`#[repr(C, packed)]` little-endian layout of `lib.rs` lines 220-228). -/
def decodeProcessorEntry (bs : List Nat) : ProcessorEntry :=
  { entry_type := bs.getD 0 0
    lapic_id := bs.getD 1 0
    lapic_version := bs.getD 2 0
    cpu_flags := bs.getD 3 0
    cpu_signature := [bs.getD 4 0, bs.getD 5 0]
    unused := [bs.getD 6 0, bs.getD 7 0]
    feature_flags := leRead4 (bs.getD 8 0) (bs.getD 9 0) (bs.getD 10 0) (bs.getD 11 0) }

/-- The packed byte pattern of a `ProcessorEntry` in specification field order. -/
def encodeProcessorEntry (p : ProcessorEntry) : List Nat :=
  [p.entry_type, p.lapic_id, p.lapic_version, p.cpu_flags]
    ++ p.cpu_signature ++ p.unused ++ leBytes4 p.feature_flags

/-- Reinterpret the packed bytes of a record as `BusEntry` (`lib.rs` lines 232-236). -/
def decodeBusEntry (bs : List Nat) : BusEntry :=
  { entry_type := bs.getD 0 0
    bus_id := bs.getD 1 0
    bus_type_string :=
      [bs.getD 2 0, bs.getD 3 0, bs.getD 4 0, bs.getD 5 0, bs.getD 6 0, bs.getD 7 0] }

/-- The packed byte pattern of a `BusEntry` in specification field order. -/
def encodeBusEntry (b : BusEntry) : List Nat :=
  [b.entry_type, b.bus_id] ++ b.bus_type_string

/-- Reinterpret the packed bytes of a record as `IOAPICEntry` (`lib.rs` lines 240-246). -/
def decodeIOAPICEntry (bs : List Nat) : IOAPICEntry :=
  { entry_type := bs.getD 0 0
    ioapic_id := bs.getD 1 0
    ioapic_version := bs.getD 2 0
    ioapic_flags := bs.getD 3 0
    ioapic_address := leRead4 (bs.getD 4 0) (bs.getD 5 0) (bs.getD 6 0) (bs.getD 7 0) }

/-- The packed byte pattern of an `IOAPICEntry` in specification field order. -/
def encodeIOAPICEntry (a : IOAPICEntry) : List Nat :=
  [a.entry_type, a.ioapic_id, a.ioapic_version, a.ioapic_flags]
    ++ leBytes4 a.ioapic_address

/-- Reinterpret the packed bytes of a record as `IOInterruptAssignmentEntry`
(`lib.rs` lines 250-259). -/
def decodeIOInterruptAssignmentEntry (bs : List Nat) : IOInterruptAssignmentEntry :=
  { entry_type := bs.getD 0 0
    interrupt_type := bs.getD 1 0
    interrupt_mode := bs.getD 2 0
    unused := bs.getD 3 0
    source_bus_id := bs.getD 4 0
    source_bus_irq := bs.getD 5 0
    dest_ioapic_id := bs.getD 6 0
    dest_ioapic_int := bs.getD 7 0 }

/-- The packed byte pattern of an `IOInterruptAssignmentEntry`. -/
def encodeIOInterruptAssignmentEntry (e : IOInterruptAssignmentEntry) : List Nat :=
  [e.entry_type, e.interrupt_type, e.interrupt_mode, e.unused,
   e.source_bus_id, e.source_bus_irq, e.dest_ioapic_id, e.dest_ioapic_int]

/-- Reinterpret the packed bytes of a record as `LocalInterruptAssignmentEntry`
(`lib.rs` lines 263-272). -/
def decodeLocalInterruptAssignmentEntry (bs : List Nat) : LocalInterruptAssignmentEntry :=
  { entry_type := bs.getD 0 0
    interrupt_type := bs.getD 1 0
    interrupt_mode := bs.getD 2 0
    unused := bs.getD 3 0
    source_bus_id := bs.getD 4 0
    source_bus_irq := bs.getD 5 0
    dest_ioapic_id := bs.getD 6 0
    dest_ioapic_int := bs.getD 7 0 }

/-- The packed byte pattern of a `LocalInterruptAssignmentEntry`. -/
def encodeLocalInterruptAssignmentEntry (e : LocalInterruptAssignmentEntry) : List Nat :=
  [e.entry_type, e.interrupt_type, e.interrupt_mode, e.unused,
   e.source_bus_id, e.source_bus_irq, e.dest_ioapic_id, e.dest_ioapic_int]

/-- `union MPPossibleEntries`, `lib.rs` lines 163-169: the overlapping storage
shared by the five entry records, modelled as its backing bytes. Reading a
union field is decoding the corresponding record from this storage. -/
structure MPPossibleEntries where
  bytes : List Nat
deriving DecidableEq

/-- `MPEntry`, `lib.rs` lines 171-174. -/
structure MPEntry where
  code : MPEntryCode
  entries : MPPossibleEntries

/-- `MPEntry::get_processor_entry`, `lib.rs` lines 177-183. -/
def MPEntry.get_processor_entry (e : MPEntry) : Option ProcessorEntry :=
  if e.code = MPEntryCode.Processor then
    some (decodeProcessorEntry e.entries.bytes)
  else
    none

/-- `MPEntry::get_bus_entry`, `lib.rs` lines 185-191. -/
def MPEntry.get_bus_entry (e : MPEntry) : Option BusEntry :=
  if e.code = MPEntryCode.Bus then
    some (decodeBusEntry e.entries.bytes)
  else
    none

/-- `MPEntry::get_ioapic_entry`, `lib.rs` lines 193-199. -/
def MPEntry.get_ioapic_entry (e : MPEntry) : Option IOAPICEntry :=
  if e.code = MPEntryCode.IOAPIC then
    some (decodeIOAPICEntry e.entries.bytes)
  else
    none

/-- `MPEntry::get_io_interrupt_assignment_entry`, `lib.rs` lines 201-207. -/
def MPEntry.get_io_interrupt_assignment_entry (e : MPEntry) :
    Option IOInterruptAssignmentEntry :=
  if e.code = MPEntryCode.IOInterruptAssignment then
    some (decodeIOInterruptAssignmentEntry e.entries.bytes)
  else
    none

/-- `MPEntry::get_local_interrupt_assignment_entry`, `lib.rs` lines 209-215. -/
def MPEntry.get_local_interrupt_assignment_entry (e : MPEntry) :
    Option LocalInterruptAssignmentEntry :=
  if e.code = MPEntryCode.LocalInterruptAssignment then
    some (decodeLocalInterruptAssignmentEntry e.entries.bytes)
  else
    none

/-- `streamAt mem addr codes`: starting at `addr`, memory holds the type-code
bytes of `codes` at the offsets determined by the fixed entry lengths. -/
def streamAt (mem : Mem) : Nat → List MPEntryCode → Prop
  | _, [] => True
  | addr, c :: cs => mem addr = c.codeByte ∧ streamAt mem (addr + c.lengthD) cs

/-! ### Helper lemmas -/

lemma land_fifteen (a : Nat) : a &&& 15 = a % 16 := by
  have h := Nat.and_pow_two_sub_one_eq_mod a 4
  norm_num at h
  exact h

lemma from_u8_codeByte (c : MPEntryCode) : MPEntryCode.from_u8 c.codeByte = c := by
  cases c <;> rfl

lemma length_of_known (c : MPEntryCode) (h : c ≠ MPEntryCode.Unknown) :
    c.length = some c.lengthD := by
  cases c <;> simp_all [MPEntryCode.length, MPEntryCode.lengthD]

lemma sumLen_nil : sumLen [] = 0 := rfl

lemma sumLen_cons (c : MPEntryCode) (cs : List MPEntryCode) :
    sumLen (c :: cs) = c.lengthD + sumLen cs := by
  simp [sumLen]

/-! ### C1, C2, C6, C7, C8: validation layer -/

/-- Claim C1: `MPFloatingPointer::verify_checksum` accepts exactly the
structures whose 16-byte sum (signature bytes, table-pointer bytes, length,
spec revision, the checksum byte itself and the feature bytes) has a zero low
nibble, i.e. the sum is 0 modulo 16 — not the full sum modulo 256. -/
theorem mpfp_verify_checksum_iff_low_nibble (fp : MPFloatingPointer) :
    fp.verify_checksum = true ↔ fp.byteSum % 16 = 0 := by
  simp only [MPFloatingPointer.verify_checksum, MPFloatingPointer.byteSum, leBytes4,
    List.sum_append, List.sum_cons, List.sum_nil, List.sum_replicate, beq_iff_eq,
    land_fifteen, smul_eq_mul]
  constructor <;> (intro h; omega)

/-- Claim C2: `MPConfigurationTableHeader::verify_checksum` is a stub that
returns `true` for every header, so `is_valid` coincides with
`verify_signature`, which holds exactly when the four little-endian signature
bytes spell `"PCMP"`. -/
theorem mpcth_is_valid_iff_signature (h : MPConfigurationTableHeader) :
    h.verify_checksum = true ∧
    h.is_valid = h.verify_signature ∧
    (h.is_valid = true ↔ leBytes4 h.signature = MPCONFIGURATIONTABLEHEADER_SIGNATURE) := by
  refine ⟨rfl, ?_, ?_⟩ <;>
    simp [MPConfigurationTableHeader.is_valid, MPConfigurationTableHeader.verify_checksum,
      MPConfigurationTableHeader.verify_signature]

/-- Claim C6: `MPFloatingPointer::verify_signature` holds exactly when the four
little-endian signature bytes spell `"_MP_"`; `is_valid` is the conjunction of
the checksum and signature checks; and changing any single signature byte of a
correctly signed structure falsifies `verify_signature`. -/
theorem mpfp_signature_and_validity :
    (∀ fp : MPFloatingPointer,
      fp.verify_signature = true ↔ leBytes4 fp.signature = MPFLOATINGPOINTER_SIGNATURE) ∧
    (∀ fp : MPFloatingPointer, fp.is_valid = (fp.verify_checksum && fp.verify_signature)) ∧
    (∀ (fp fp' : MPFloatingPointer) (i : Nat), i < 4 →
      fp.verify_signature = true →
      (leBytes4 fp'.signature).getD i 0 ≠ (leBytes4 fp.signature).getD i 0 →
      fp'.verify_signature = false) := by
  refine ⟨?_, fun _ => rfl, ?_⟩
  · intro fp
    simp [MPFloatingPointer.verify_signature]
  · intro fp fp' i _ hsig hne
    cases hb : fp'.verify_signature with
    | false => rfl
    | true =>
      exfalso
      apply hne
      have h1 : leBytes4 fp.signature = MPFLOATINGPOINTER_SIGNATURE := by
        simpa [MPFloatingPointer.verify_signature] using hsig
      have h2 : leBytes4 fp'.signature = MPFLOATINGPOINTER_SIGNATURE := by
        simpa [MPFloatingPointer.verify_signature] using hb
      rw [h1, h2]

/-- Witness for C6: the canonical `"_MP_"` signature value passes the check,
and decrementing its first byte fails it. -/
theorem mpfp_signature_and_validity_witness :
    (MPFloatingPointer.mk 1599098206 0 0 0 0 [0, 0, 0, 0, 0]).verify_signature = false :=
  mpfp_signature_and_validity.2.2
    (MPFloatingPointer.mk 1599098207 0 0 0 0 [0, 0, 0, 0, 0])
    (MPFloatingPointer.mk 1599098206 0 0 0 0 [0, 0, 0, 0, 0])
    0 (by decide) (by decide) (by decide)

/-- Claim C7: `MPEntryCode::length` yields 20 for `Processor` and 8 for the
four other known kinds; on `Unknown` it reaches the fatal arm (the source
panics, modelled as `none`); for every known kind the fatal arm is unreachable. -/
theorem entry_code_length_spec :
    MPEntryCode.Processor.length = some 20 ∧
    MPEntryCode.Bus.length = some 8 ∧
    MPEntryCode.IOAPIC.length = some 8 ∧
    MPEntryCode.IOInterruptAssignment.length = some 8 ∧
    MPEntryCode.LocalInterruptAssignment.length = some 8 ∧
    MPEntryCode.Unknown.length = none ∧
    (∀ c : MPEntryCode, c ≠ MPEntryCode.Unknown → (c.length).isSome = true) := by
  refine ⟨rfl, rfl, rfl, rfl, rfl, rfl, ?_⟩
  intro c hc
  cases c <;> simp_all [MPEntryCode.length]

/-- Witness for C7: the hypothesis-bearing conjunct applied to `Bus`. -/
theorem entry_code_length_spec_witness :
    (MPEntryCode.Bus.length).isSome = true :=
  entry_code_length_spec.2.2.2.2.2.2 MPEntryCode.Bus (by decide)

/-- Claim C8: the implemented low-nibble checksum rule is strictly weaker than
the specification's full-sum-mod-256 rule: a floating pointer whose 16 bytes
sum to 16 fails the classic rule yet passes `verify_checksum`. -/
theorem weak_checksum_strictly_weaker :
    ∃ fp : MPFloatingPointer,
      fp.mp_feature_info_bytes.length = 5 ∧
      fp.byteSum % 256 ≠ 0 ∧
      fp.verify_checksum = true :=
  ⟨MPFloatingPointer.mk 0 0 0 0 0 [16, 0, 0, 0, 0], by decide, by decide, by decide⟩

/-! ### Iterator lemmas -/

lemma next_exhausted (mem : Mem) (it : EntryIterator)
    (h : it.total_entries ≤ it.entries_sofar) :
    it.next mem = .ok (none, it) := by
  simp [EntryIterator.next, ge_iff_le, h]

lemma next_yield (mem : Mem) (it : EntryIterator) (c : MPEntryCode) (l : Nat)
    (h : it.entries_sofar < it.total_entries)
    (hc : MPEntryCode.from_u8 (mem (it.table_location + it.current_offset)) = c)
    (hl : c.length = some l) :
    it.next mem = .ok (some c,
      ⟨it.table_location, it.entries_sofar + 1, it.total_entries, it.current_offset + l⟩) := by
  simp [EntryIterator.next, ge_iff_le, Nat.not_le.mpr h, hc, hl]

lemma next_fatal (mem : Mem) (it : EntryIterator)
    (h : it.entries_sofar < it.total_entries)
    (hc : MPEntryCode.from_u8 (mem (it.table_location + it.current_offset)) =
      MPEntryCode.Unknown) :
    it.next mem = .error () := by
  simp [EntryIterator.next, ge_iff_le, Nat.not_le.mpr h, hc, MPEntryCode.length]

lemma next_ok_none_inv (mem : Mem) (it it2 : EntryIterator)
    (h : it.next mem = .ok (none, it2)) :
    it2 = it ∧ it.total_entries ≤ it.entries_sofar := by
  by_cases hge : it.total_entries ≤ it.entries_sofar
  · rw [next_exhausted mem it hge] at h
    simp at h
    exact ⟨h.symm, hge⟩
  · push_neg at hge
    exfalso
    cases hl : (MPEntryCode.from_u8 (mem (it.table_location + it.current_offset))).length with
    | none => simp [EntryIterator.next, ge_iff_le, Nat.not_le.mpr hge, hl] at h
    | some l => simp [EntryIterator.next, ge_iff_le, Nat.not_le.mpr hge, hl] at h

lemma next_ok_some_inv (mem : Mem) (it : EntryIterator) (c : MPEntryCode)
    (it2 : EntryIterator) (h : it.next mem = .ok (some c, it2)) :
    it.entries_sofar < it.total_entries ∧ c ≠ MPEntryCode.Unknown ∧
    it2 = ⟨it.table_location, it.entries_sofar + 1, it.total_entries,
      it.current_offset + c.lengthD⟩ := by
  by_cases hge : it.total_entries ≤ it.entries_sofar
  · rw [next_exhausted mem it hge] at h
    simp at h
  · push_neg at hge
    cases hl : (MPEntryCode.from_u8 (mem (it.table_location + it.current_offset))).length with
    | none => simp [EntryIterator.next, ge_iff_le, Nat.not_le.mpr hge, hl] at h
    | some l =>
      simp only [EntryIterator.next, ge_iff_le, Nat.not_le.mpr hge, if_false, hl] at h
      obtain ⟨hc, hit⟩ := by simpa using h
      have hcl : c.length = some l := by rw [← hc]; exact hl
      have hcu : c ≠ MPEntryCode.Unknown := by
        intro hu; rw [hu] at hcl; simp [MPEntryCode.length] at hcl
      have hld : c.lengthD = l := by simp [MPEntryCode.lengthD, hcl]
      refine ⟨hge, hcu, ?_⟩
      rw [← hit, hld]

lemma runIter_exhausted (mem : Mem) (it : EntryIterator)
    (h : it.total_entries ≤ it.entries_sofar) :
    ∀ n, runIter mem n it = .ok ([], it) := by
  intro n
  cases n with
  | zero => rfl
  | succ k => simp [runIter, next_exhausted mem it h]

lemma runIter_succ_error (mem : Mem) (k : Nat) (it : EntryIterator) (e : Unit)
    (h : it.next mem = .error e) : runIter mem (k + 1) it = .error e := by
  rw [runIter, h]

lemma runIter_succ_none (mem : Mem) (k : Nat) (it it2 : EntryIterator)
    (h : it.next mem = .ok (none, it2)) : runIter mem (k + 1) it = .ok ([], it2) := by
  rw [runIter, h]

lemma runIter_succ_some (mem : Mem) (k : Nat) (it : EntryIterator) (c : MPEntryCode)
    (it2 : EntryIterator) (h : it.next mem = .ok (some c, it2)) :
    runIter mem (k + 1) it =
      match runIter mem k it2 with
      | .error e => .error e
      | .ok (cs, it3) => .ok (c :: cs, it3) := by
  rw [runIter, h]

lemma runIter_ok_inv (mem : Mem) (k : Nat) :
    ∀ (it : EntryIterator) (cs : List MPEntryCode) (it2 : EntryIterator),
      runIter mem k it = .ok (cs, it2) →
      it2.table_location = it.table_location ∧
      it2.total_entries = it.total_entries ∧
      it2.entries_sofar = it.entries_sofar + cs.length ∧
      it2.current_offset = it.current_offset + sumLen cs ∧
      (it.entries_sofar ≤ it.total_entries → it2.entries_sofar ≤ it2.total_entries) ∧
      (∀ c ∈ cs, c ≠ MPEntryCode.Unknown) := by
  induction k with
  | zero =>
    intro it cs it2 h
    simp [runIter] at h
    obtain ⟨h1, h2⟩ := h
    subst h1
    subst h2
    simp [sumLen_nil]
  | succ k ih =>
    intro it cs it2 h
    cases hn : EntryIterator.next mem it with
    | error e =>
      rw [runIter_succ_error mem k it e hn] at h
      simp at h
    | ok v =>
      obtain ⟨oc, it3⟩ := v
      cases oc with
      | none =>
        rw [runIter_succ_none mem k it it3 hn] at h
        obtain ⟨hit, _⟩ := next_ok_none_inv mem it it3 hn
        simp at h
        obtain ⟨h1, h2⟩ := h
        subst h1
        subst h2
        simp [hit, sumLen_nil]
      | some c =>
        rw [runIter_succ_some mem k it c it3 hn] at h
        cases hr : runIter mem k it3 with
        | error e => rw [hr] at h; simp at h
        | ok p =>
          obtain ⟨cs', it4⟩ := p
          rw [hr] at h
          simp at h
          obtain ⟨h1, h2⟩ := h
          subst h1
          subst h2
          obtain ⟨hlt, hcu, hit3⟩ := next_ok_some_inv mem it c it3 hn
          obtain ⟨i1, i2, i3, i4, i5⟩ := ih it3 cs' it4 hr
          subst hit3
          obtain ⟨i5', i6⟩ := i5
          refine ⟨by simpa using i1, by simpa using i2, ?_, ?_, ?_, ?_⟩
          · simp only [List.length_cons]
            simp at i3
            omega
          · rw [sumLen_cons]
            simp at i4
            omega
          · intro _
            simp at i2 i3
            have := i5' (by simp; omega)
            omega
          · intro x hx
            rcases List.mem_cons.mp hx with hx' | hx'
            · rw [hx']; exact hcu
            · exact i6 x hx'

lemma runIter_add (mem : Mem) (m : Nat) :
    ∀ (n : Nat) (it : EntryIterator),
      runIter mem (m + n) it =
        match runIter mem m it with
        | .error e => .error e
        | .ok (cs, it2) =>
          match runIter mem n it2 with
          | .error e => .error e
          | .ok (cs2, it3) => .ok (cs ++ cs2, it3) := by
  induction m with
  | zero =>
    intro n it
    simp only [Nat.zero_add, runIter]
    cases hr : runIter mem n it with
    | error e => rfl
    | ok p => obtain ⟨cs, it3⟩ := p; simp
  | succ m ih =>
    intro n it
    have hstep : m + 1 + n = (m + n) + 1 := by omega
    rw [hstep]
    cases hn : EntryIterator.next mem it with
    | error e =>
      rw [runIter_succ_error mem (m + n) it e hn,
        runIter_succ_error mem m it e hn]
    | ok v =>
      obtain ⟨oc, it3⟩ := v
      cases oc with
      | none =>
        obtain ⟨hit, hge⟩ := next_ok_none_inv mem it it3 hn
        have hge3 : it3.total_entries ≤ it3.entries_sofar := by rw [hit]; exact hge
        rw [runIter_succ_none mem (m + n) it it3 hn,
          runIter_succ_none mem m it it3 hn]
        simp [runIter_exhausted mem it3 hge3 n]
      | some c =>
        rw [runIter_succ_some mem (m + n) it c it3 hn,
          runIter_succ_some mem m it c it3 hn]
        rw [ih n it3]
        cases hr : runIter mem m it3 with
        | error e => rfl
        | ok p =>
          obtain ⟨cs, it4⟩ := p
          cases hr2 : runIter mem n it4 with
          | error e => simp [hr2]
          | ok p2 => obtain ⟨cs2, it5⟩ := p2; simp [hr2]

lemma runIter_bus (mem : Mem) (base N : Nat)
    (hmem : ∀ i < N, mem (base + 8 * i) = 1) :
    ∀ (n s : Nat), s + n ≤ N →
      runIter mem n ⟨base, s, N, 8 * s⟩ =
        .ok (List.replicate n MPEntryCode.Bus, ⟨base, s + n, N, 8 * (s + n)⟩) := by
  intro n
  induction n with
  | zero =>
    intro s hs
    simp [runIter]
  | succ n ihn =>
    intro s hs
    have hlt : s < N := by omega
    have hb : mem (base + 8 * s) = 1 := hmem s hlt
    have hny := next_yield mem ⟨base, s, N, 8 * s⟩ MPEntryCode.Bus 8
      (by show s < N; omega)
      (by show MPEntryCode.from_u8 (mem (base + 8 * s)) = MPEntryCode.Bus
          rw [hb]
          decide)
      rfl
    rw [runIter_succ_some mem n ⟨base, s, N, 8 * s⟩ MPEntryCode.Bus _ hny]
    have e1 : 8 * s + 8 = 8 * (s + 1) := by omega
    rw [e1, ihn (s + 1) (by omega)]
    simp only [List.replicate_succ]
    simp [EntryIterator.mk.injEq]
    omega

lemma streamAt_append (mem : Mem) :
    ∀ (xs ys : List MPEntryCode) (a : Nat),
      streamAt mem a (xs ++ ys) ↔
        streamAt mem a xs ∧ streamAt mem (a + sumLen xs) ys := by
  intro xs
  induction xs with
  | nil =>
    intro ys a
    simp [streamAt, sumLen_nil]
  | cons c cs ihc =>
    intro ys a
    simp [streamAt, ihc ys (a + c.lengthD), sumLen_cons, Nat.add_assoc, and_assoc]

lemma runIter_stream (mem : Mem) (base N : Nat) :
    ∀ (codes : List MPEntryCode) (s o : Nat),
      (∀ c ∈ codes, c ≠ MPEntryCode.Unknown) →
      s + codes.length ≤ N →
      streamAt mem (base + o) codes →
      runIter mem codes.length ⟨base, s, N, o⟩ =
        .ok (codes, ⟨base, s + codes.length, N, o + sumLen codes⟩) := by
  intro codes
  induction codes with
  | nil =>
    intro s o _ _ _
    simp [runIter, sumLen_nil]
  | cons c cs ihc =>
    intro s o hk hs hst
    obtain ⟨hb, hrest⟩ := hst
    have hcu : c ≠ MPEntryCode.Unknown := hk c (List.mem_cons_self c cs)
    have hlen : c.length = some c.lengthD := length_of_known c hcu
    have hny := next_yield mem ⟨base, s, N, o⟩ c c.lengthD
      (by show s < N; simp at hs; omega)
      (by show MPEntryCode.from_u8 (mem (base + o)) = c
          rw [hb, from_u8_codeByte])
      hlen
    simp only [List.length_cons]
    rw [runIter_succ_some mem cs.length ⟨base, s, N, o⟩ c _ hny]
    rw [ihc (s + 1) (o + c.lengthD)
      (fun x hx => hk x (List.mem_cons_of_mem c hx))
      (by simp at hs; omega)
      (by rw [← Nat.add_assoc]; exact hrest)]
    simp [EntryIterator.mk.injEq, sumLen_cons]
    omega

/-! ### C3, C4, C10: traversal layer -/

/-- Claim C4: over a memory region holding `entry_count` consecutive Bus
entries (type code 1 every 8 bytes) the iterator yields exactly `entry_count`
classifications, all `Bus`, for any number of `next` calls beyond that, and a
further `next` in the exhausted state yields nothing. -/
theorem iterator_yields_bus_entries (mem : Mem) (h : MPConfigurationTableHeader)
    (loc : Nat) (hmem : ∀ i < h.entry_count, mem (loc + 44 + 8 * i) = 1) :
    (∀ k, runIter mem (h.entry_count + k) (h.iter loc) =
      .ok (List.replicate h.entry_count MPEntryCode.Bus,
        ⟨loc + 44, h.entry_count, h.entry_count, 8 * h.entry_count⟩)) ∧
    EntryIterator.next mem
        ⟨loc + 44, h.entry_count, h.entry_count, 8 * h.entry_count⟩ =
      .ok (none, ⟨loc + 44, h.entry_count, h.entry_count, 8 * h.entry_count⟩) := by
  have hit : h.iter loc = ⟨loc + 44, 0, h.entry_count, 8 * 0⟩ := rfl
  have hrun := runIter_bus mem (loc + 44) h.entry_count hmem h.entry_count 0 (by omega)
  simp only [Nat.zero_add] at hrun
  constructor
  · intro k
    rw [runIter_add mem h.entry_count k (h.iter loc), hit, hrun]
    have hex := runIter_exhausted mem
      ⟨loc + 44, h.entry_count, h.entry_count, 8 * h.entry_count⟩ (le_refl _) k
    simp [hex]
  · exact next_exhausted mem _ (le_refl _)

/-- A concrete configuration table header with the given entry count and all
other fields zero, used to instantiate the traversal theorems. -/
def testHeader (n : Nat) : MPConfigurationTableHeader :=
  ⟨0, 0, 0, 0, [], [], 0, 0, n, 0, 0, 0⟩

/-- Witness for C4: two Bus entries at addresses 44 and 52 are both yielded and
the iterator ends exhausted at offset 16. -/
theorem iterator_yields_bus_entries_witness :
    runIter (fun _ => 1) 2 ((testHeader 2).iter 0) =
      .ok (List.replicate 2 MPEntryCode.Bus, ⟨44, 2, 2, 16⟩) := by
  have hw := (iterator_yields_bus_entries (fun _ => 1) (testHeader 2) 0
    (fun i _ => rfl)).1 0
  simpa using hw

/-- Claim C3: after `N` known entries the stream carries an unknown type code;
the iterator yields exactly the `N` valid classifications, the `(N+1)`-th call
to `next` is the fatal error, every longer run from the start is fatal as
well, and no successful run ever yields `Unknown` as a value. -/
theorem iterator_fatal_on_unknown (mem : Mem) (h : MPConfigurationTableHeader)
    (loc : Nat) (codes : List MPEntryCode)
    (hknown : ∀ c ∈ codes, c ≠ MPEntryCode.Unknown)
    (hcount : h.entry_count = codes.length + 1)
    (hstream : streamAt mem (loc + 44) (codes ++ [MPEntryCode.Unknown])) :
    runIter mem codes.length (h.iter loc) =
      .ok (codes, ⟨loc + 44, codes.length, h.entry_count, sumLen codes⟩) ∧
    EntryIterator.next mem
        ⟨loc + 44, codes.length, h.entry_count, sumLen codes⟩ = .error () ∧
    (∀ k, runIter mem (codes.length + 1 + k) (h.iter loc) = .error ()) ∧
    (∀ (mem2 : Mem) (k : Nat) (it it2 : EntryIterator) (cs : List MPEntryCode),
      runIter mem2 k it = .ok (cs, it2) → MPEntryCode.Unknown ∉ cs) := by
  obtain ⟨hs1, hs2⟩ := (streamAt_append mem codes [MPEntryCode.Unknown] (loc + 44)).mp hstream
  obtain ⟨hby, -⟩ := hs2
  have hit : h.iter loc = ⟨loc + 44, 0, h.entry_count, 0⟩ := rfl
  have hrun := runIter_stream mem (loc + 44) h.entry_count codes 0 0 hknown
    (by omega) (by simpa using hs1)
  simp only [Nat.zero_add] at hrun
  have hrun2 : runIter mem codes.length (h.iter loc) =
      .ok (codes, ⟨loc + 44, codes.length, h.entry_count, sumLen codes⟩) := by
    rw [hit]
    simpa using hrun
  have hfatal : EntryIterator.next mem
      ⟨loc + 44, codes.length, h.entry_count, sumLen codes⟩ = .error () := by
    apply next_fatal
    · show codes.length < h.entry_count
      omega
    · show MPEntryCode.from_u8 (mem (loc + 44 + sumLen codes)) = MPEntryCode.Unknown
      rw [hby]
      decide
  refine ⟨hrun2, hfatal, ?_, ?_⟩
  · intro k
    have hsplit : codes.length + 1 + k = codes.length + (k + 1) := by omega
    rw [hsplit, runIter_add mem codes.length (k + 1) (h.iter loc), hrun2]
    simp [runIter_succ_error mem k _ () hfatal]
  · intro mem2 k it it2 cs hr hin
    exact (runIter_ok_inv mem2 k it cs it2 hr).2.2.2.2.2 MPEntryCode.Unknown hin rfl

/-- Witness for C3: one Bus entry at address 44 followed by type code 5 at
address 52; the second call to `next` is fatal. -/
theorem iterator_fatal_on_unknown_witness :
    EntryIterator.next (fun a => if a = 44 then 1 else 5) ⟨44, 1, 2, 8⟩ =
      .error () := by
  have hw := iterator_fatal_on_unknown (fun a => if a = 44 then 1 else 5)
    (testHeader 2) 0 [MPEntryCode.Bus]
    (by intro c hc; rw [List.mem_singleton] at hc; subst hc; decide)
    rfl
    ⟨rfl, rfl, trivial⟩
  exact hw.2.1

/-- Claim C10: along any run of `next` calls on an iterator created by
`MPConfigurationTableHeader::iter`, the consumed count never exceeds the
target count and equals the number of yielded classifications, the byte offset
is the sum of the yielded classifications' fixed lengths, the base location
and target count are never modified, and `next` in the exhausted state yields
nothing and leaves the state unchanged. -/
theorem entry_iterator_invariants :
    (∀ (mem : Mem) (h : MPConfigurationTableHeader) (loc k : Nat)
        (cs : List MPEntryCode) (it2 : EntryIterator),
      runIter mem k (h.iter loc) = .ok (cs, it2) →
        it2.table_location = loc + 44 ∧
        it2.total_entries = h.entry_count ∧
        it2.entries_sofar ≤ it2.total_entries ∧
        it2.entries_sofar = cs.length ∧
        it2.current_offset = sumLen cs) ∧
    (∀ (mem : Mem) (it : EntryIterator),
      it.total_entries ≤ it.entries_sofar → it.next mem = .ok (none, it)) := by
  constructor
  · intro mem h loc k cs it2 hr
    obtain ⟨i1, i2, i3, i4, i5, -⟩ := runIter_ok_inv mem k (h.iter loc) cs it2 hr
    refine ⟨by simpa [MPConfigurationTableHeader.iter] using i1,
      by simpa [MPConfigurationTableHeader.iter] using i2,
      i5 (by simp [MPConfigurationTableHeader.iter]),
      by simpa [MPConfigurationTableHeader.iter] using i3,
      by simpa [MPConfigurationTableHeader.iter] using i4⟩
  · intro mem it hle
    exact next_exhausted mem it hle

/-- Witness for C10: after consuming both Bus entries the state is
`⟨44, 2, 2, 16⟩`, its offset is the summed entry lengths, and `next` in this
exhausted state changes nothing. -/
theorem entry_iterator_invariants_witness :
    ((⟨44, 2, 2, 16⟩ : EntryIterator).current_offset =
      sumLen (List.replicate 2 MPEntryCode.Bus)) ∧
    EntryIterator.next (fun _ => 1) ⟨44, 2, 2, 16⟩ =
      .ok (none, ⟨44, 2, 2, 16⟩) := by
  constructor
  · exact (entry_iterator_invariants.1 (fun _ => 1) (testHeader 2) 0 2
      (List.replicate 2 MPEntryCode.Bus) ⟨44, 2, 2, 16⟩ rfl).2.2.2.2
  · exact entry_iterator_invariants.2 (fun _ => 1) ⟨44, 2, 2, 16⟩ (by decide)

/-! ### C5, C9: typed entry accessors and record layout -/

/-- Claim C5: each typed accessor of `MPEntry` returns the typed record exactly
when the entry's code is the corresponding kind and absence otherwise; in
particular on a Bus-classified entry the processor accessor is `none` while
the bus accessor returns the Bus view decoded from the entry's bytes. -/
theorem mp_entry_typed_accessors (e : MPEntry) :
    ((e.get_processor_entry).isSome = true ↔ e.code = MPEntryCode.Processor) ∧
    ((e.get_bus_entry).isSome = true ↔ e.code = MPEntryCode.Bus) ∧
    ((e.get_ioapic_entry).isSome = true ↔ e.code = MPEntryCode.IOAPIC) ∧
    ((e.get_io_interrupt_assignment_entry).isSome = true ↔
      e.code = MPEntryCode.IOInterruptAssignment) ∧
    ((e.get_local_interrupt_assignment_entry).isSome = true ↔
      e.code = MPEntryCode.LocalInterruptAssignment) ∧
    (e.code = MPEntryCode.Bus →
      e.get_processor_entry = none ∧
      e.get_bus_entry = some (decodeBusEntry e.entries.bytes)) := by
  refine ⟨?_, ?_, ?_, ?_, ?_, ?_⟩
  · by_cases hc : e.code = MPEntryCode.Processor <;>
      simp [MPEntry.get_processor_entry, hc]
  · by_cases hc : e.code = MPEntryCode.Bus <;>
      simp [MPEntry.get_bus_entry, hc]
  · by_cases hc : e.code = MPEntryCode.IOAPIC <;>
      simp [MPEntry.get_ioapic_entry, hc]
  · by_cases hc : e.code = MPEntryCode.IOInterruptAssignment <;>
      simp [MPEntry.get_io_interrupt_assignment_entry, hc]
  · by_cases hc : e.code = MPEntryCode.LocalInterruptAssignment <;>
      simp [MPEntry.get_local_interrupt_assignment_entry, hc]
  · intro hb
    constructor
    · simp [MPEntry.get_processor_entry, hb]
    · simp [MPEntry.get_bus_entry, hb]

/-- Witness for C5: a Bus-coded entry denies the processor view and returns the
decoded bus view. -/
theorem mp_entry_typed_accessors_witness :
    (MPEntry.mk MPEntryCode.Bus ⟨[1, 7, 80, 67, 73, 0, 0, 0]⟩).get_processor_entry =
      none ∧
    (MPEntry.mk MPEntryCode.Bus ⟨[1, 7, 80, 67, 73, 0, 0, 0]⟩).get_bus_entry =
      some (decodeBusEntry [1, 7, 80, 67, 73, 0, 0, 0]) :=
  (mp_entry_typed_accessors
    ⟨MPEntryCode.Bus, ⟨[1, 7, 80, 67, 73, 0, 0, 0]⟩⟩).2.2.2.2.2 rfl

/-- Claim C9: for each of the five entry kinds, laying out a record's fields as
its fixed-length byte pattern in specification order and decoding that pattern
reproduces every named field exactly (byte-exact little-endian projection). -/
theorem entry_records_roundtrip :
    (∀ (t li lv cf s0 s1 u0 u1 ff : Nat), ff < 4294967296 →
      decodeProcessorEntry (encodeProcessorEntry ⟨t, li, lv, cf, [s0, s1], [u0, u1], ff⟩) =
        ⟨t, li, lv, cf, [s0, s1], [u0, u1], ff⟩) ∧
    (∀ (t bi b0 b1 b2 b3 b4 b5 : Nat),
      decodeBusEntry (encodeBusEntry ⟨t, bi, [b0, b1, b2, b3, b4, b5]⟩) =
        ⟨t, bi, [b0, b1, b2, b3, b4, b5]⟩) ∧
    (∀ (t i v f addr : Nat), addr < 4294967296 →
      decodeIOAPICEntry (encodeIOAPICEntry ⟨t, i, v, f, addr⟩) =
        ⟨t, i, v, f, addr⟩) ∧
    (∀ (t ity imo u sb si di dn : Nat),
      decodeIOInterruptAssignmentEntry (encodeIOInterruptAssignmentEntry
        ⟨t, ity, imo, u, sb, si, di, dn⟩) = ⟨t, ity, imo, u, sb, si, di, dn⟩) ∧
    (∀ (t ity imo u sb si di dn : Nat),
      decodeLocalInterruptAssignmentEntry (encodeLocalInterruptAssignmentEntry
        ⟨t, ity, imo, u, sb, si, di, dn⟩) = ⟨t, ity, imo, u, sb, si, di, dn⟩) := by
  refine ⟨?_, ?_, ?_, ?_, ?_⟩
  · intro t li lv cf s0 s1 u0 u1 ff hff
    simp [decodeProcessorEntry, encodeProcessorEntry, leBytes4, leRead4,
      ProcessorEntry.mk.injEq]
    omega
  · intro t bi b0 b1 b2 b3 b4 b5
    rfl
  · intro t i v f addr haddr
    simp [decodeIOAPICEntry, encodeIOAPICEntry, leBytes4, leRead4,
      IOAPICEntry.mk.injEq]
    omega
  · intro t ity imo u sb si di dn
    rfl
  · intro t ity imo u sb si di dn
    rfl

/-- Witness for C9: concrete records for the two kinds with a 32-bit field
(`0x12345678` and `0xFEDCBEEF`) survive the encode/decode round trip. -/
theorem entry_records_roundtrip_witness :
    decodeProcessorEntry (encodeProcessorEntry ⟨0, 1, 2, 3, [4, 5], [6, 7], 305419896⟩) =
      ⟨0, 1, 2, 3, [4, 5], [6, 7], 305419896⟩ ∧
    decodeIOAPICEntry (encodeIOAPICEntry ⟨2, 9, 17, 1, 4276993775⟩) =
      ⟨2, 9, 17, 1, 4276993775⟩ :=
  ⟨entry_records_roundtrip.1 0 1 2 3 4 5 6 7 305419896 (by norm_num),
   entry_records_roundtrip.2.2.1 2 9 17 1 4276993775 (by norm_num)⟩
